import Mathlib

/-!
Verification of the nvue configuration-session module
(`plugins/modules/nvue.py`).

The module drives an external `nv` CLI: it optionally detaches the pending
configuration buffer, snapshots the pending diff, runs a list of
configuration commands, snapshots the diff again, and conditionally applies
and saves the result.  Every call to the external CLI goes through an
abstract executor `Exec σ` (device state `σ` in; exit code, stdout and
stderr out) and is recorded, together with the executor's response, in a
trace of `Call`s, so that claims about which device commands run, and in
which order, can be stated and proved.
-/

namespace Nvue

variable {σ : Type} {α β : Type}

/-- Exit code, stdout and stderr returned by one external command
(`module.run_command`). -/
structure ExecResult where
  rc : Int
  stdout : String
  stderr : String
  deriving DecidableEq

/-- The external command executor: device state in, response and new state
out.  The module treats the CLI as a black box, so the executor is an
arbitrary function. -/
abbrev Exec (σ : Type) : Type := σ → String → ExecResult × σ

/-- Python's `str.strip` (for the whitespace the module meets in practice):
drop whitespace from both ends of the string.  Defined by structural
recursion over the character list so that concrete sessions evaluate. -/
def strip (s : String) : String :=
  ⟨((s.data.dropWhile Char.isWhitespace).reverse.dropWhile Char.isWhitespace).reverse⟩

/-- The call sites at which the module issues a device command. -/
inductive Event where
  | detach
  | diff
  | cmd (line : String)
  | apply (options : String)
  | save
  deriving DecidableEq

/-- The `nv` command line (the `%s` argument of `/usr/bin/nv %s`) issued at
each call site, exactly as built by the source. -/
def Event.line : Event → String
  | .detach => "config detach"
  | .diff => "config diff"
  | .cmd l => l
  | .apply o => "config apply --assume-yes " ++ o
  | .save => "config save"

/-- One recorded executor invocation: the issuing call site and the
executor's response. -/
structure Call where
  ev : Event
  res : ExecResult
  deriving DecidableEq

/-- The failure report built by `command_helper` via `module.fail_json`:
the message naming the failing line, the exit code, stdout and stderr. -/
structure Failure where
  msg : String
  rc : Int
  stdout : String
  stderr : String
  deriving DecidableEq

/-- The record returned by `run_nvue`: the changed flag, the before/after
diff snapshots and the ordered command outputs. -/
structure NvResult where
  changed : Bool
  before : String
  after : String
  output : List String
  deriving DecidableEq

/-- Device state paired with the trace of executor calls made so far. -/
abbrev St (σ : Type) : Type := σ × List Call

/-- Fail-fast sequencing of pipeline steps: propagate a failure unchanged,
otherwise continue with the produced value and state. -/
def pbind (x : St σ × Except Failure α) (f : α → St σ → St σ × Except Failure β) :
    St σ × Except Failure β :=
  match x with
  | (st, .error e) => (st, .error e)
  | (st, .ok a) => f a st

/-- `command_helper`: run `/usr/bin/nv <command>` and return trimmed
stdout, hard-failing on a non-zero exit status.  The issued command and the
executor's response are recorded in the trace. -/
def command_helper (ex : Exec σ) (tag : Event) (st : St σ) : St σ × Except Failure String :=
  let pr := ex st.1 ("/usr/bin/nv " ++ tag.line)
  let st' : St σ := (pr.2, st.2 ++ [⟨tag, pr.1⟩])
  if pr.1.rc ≠ 0 then
    (st', .error ⟨"Failed on line \x27" ++ tag.line ++ "\x27", pr.1.rc, pr.1.stdout, pr.1.stderr⟩)
  else
    (st', .ok (strip pr.1.stdout))

/-- `commands_helper`: run a list of commands, skipping lines that are
blank after trimming, collecting each trimmed stdout in order, and
aborting on the first failure. -/
def commands_helper (ex : Exec σ) : List String → St σ → St σ × Except Failure (List String)
  | [], st => (st, .ok [])
  | line :: rest, st =>
    let l := (strip line)
    if l = "" then commands_helper ex rest st
    else
      pbind (command_helper ex (.cmd l) st) fun out st' =>
        pbind (commands_helper ex rest st') fun outs st'' =>
          (st'', .ok (out :: outs))

/-- `check_pending`: snapshot the pending diff (`nv config diff`). -/
def check_pending (ex : Exec σ) (st : St σ) : St σ × Except Failure String :=
  command_helper ex .diff st

/-- The detach step of `run_nvue` (`if do_detach or module.check_mode`). -/
def detach_phase (ex : Exec σ) (doDetach cm : Bool) (st : St σ) :
    St σ × Except Failure Unit :=
  if doDetach || cm then
    pbind (command_helper ex .detach st) fun _ st' => (st', .ok ())
  else (st, .ok ())

/-- The apply step of `run_nvue`: when `cond` holds, force `changed` to
`true`, run `config apply --assume-yes <options>` and append its output to
`output` when non-empty. -/
def apply_phase (ex : Exec σ) (cond : Bool) (opts : String) (changed : Bool)
    (output : List String) (st : St σ) : St σ × Except Failure (Bool × List String) :=
  if cond then
    pbind (command_helper ex (.apply opts) st) fun ret st' =>
      (st', .ok (true, if ret ≠ "" then output ++ [ret] else output))
  else (st, .ok (changed, output))

/-- The save step of `run_nvue`: when `cond` holds, force `changed` to
`true`, run `config save` and append its output to `output` when
non-empty. -/
def save_phase (ex : Exec σ) (cond : Bool) (changed : Bool)
    (output : List String) (st : St σ) : St σ × Except Failure (Bool × List String) :=
  if cond then
    pbind (command_helper ex .save st) fun ret st' =>
      (st', .ok (true, if ret ≠ "" then output ++ [ret] else output))
  else (st, .ok (changed, output))

/-- The pipeline of `run_nvue` after the detach step: snapshot `before`,
run the commands, snapshot `after`, compute `changed = (before != after)`,
then conditionally apply (only when `after` is non-empty, the effective
apply flag holds and check-mode is off) and conditionally save (only when
the save flag holds and check-mode is off). -/
def run_rest (ex : Exec σ) (cm doApply doSave : Bool) (opts : String)
    (cmds : List String) (st : St σ) : St σ × Except Failure NvResult :=
  pbind (check_pending ex st) fun before st =>
  pbind (commands_helper ex cmds st) fun output st =>
  pbind (check_pending ex st) fun after st =>
  pbind (apply_phase ex ((after != "") && doApply && !cm) opts (before != after) output st)
    fun co st =>
  pbind (save_phase ex (doSave && !cm) co.1 co.2 st) fun co2 st =>
  (st, .ok ⟨co2.1, before, after, co2.2⟩)

/-- The `run_nvue` pipeline on resolved effective flags: detach first (always
in check-mode), then the rest. -/
def run_core (ex : Exec σ) (cm doApply doDetach doSave : Bool) (opts : String)
    (cmds : List String) (s : σ) : St σ × Except Failure NvResult :=
  pbind (detach_phase ex doDetach cm (s, [])) fun _ st =>
    run_rest ex cm doApply doSave opts cmds st

/-- The module parameters of `main`'s `argument_spec`, with their declared
defaults. -/
structure Params where
  apply : Bool := false
  atomic : Bool := false
  commands : List String := []
  confirm : Bool := false
  confirm_no : Bool := false
  confirm_timeout : String := "10m"
  confirm_yes : Bool := false
  detach : Bool := false
  save : Bool := false
  template : Option String := none
  deriving DecidableEq

/-- The accumulated `apply_options` string of `run_nvue`: confirm-derived
options, in source order. -/
def applyOptions (p : Params) : String :=
  (if p.confirm then " --confirm " ++ p.confirm_timeout else "")
    ++ (if p.confirm_yes then " --confirm-yes" else "")
    ++ (if p.confirm_no then " --confirm-no" else "")

/-- The effective `do_apply` flag: `apply`, forced to true by `confirm`
(first) and by `atomic` (second). -/
def effApply (p : Params) : Bool :=
  if p.atomic then true else if p.confirm then true else p.apply

/-- The effective `do_detach` flag: `detach`, forced to true by `atomic`. -/
def effDetach (p : Params) : Bool :=
  if p.atomic then true else p.detach

/-- `run_nvue` on an already-resolved command list: resolve the effective
flags and run the pipeline. -/
def run_nvue_resolved (ex : Exec σ) (cm : Bool) (p : Params) (cmds : List String) (s : σ) :
    St σ × Except Failure NvResult :=
  run_core ex cm (effApply p) (effDetach p) p.save (applyOptions p) cmds s

/-- Python's `str.splitlines` restricted to `\n` separators: split on
newlines with no trailing empty entry for a trailing newline. -/
def splitlines (t : String) : List String :=
  if t = "" then []
  else
    let parts := t.splitOn "\n"
    if parts.getLast? = some "" then parts.dropLast else parts

/-- The command-list resolution at the top of `run_nvue`: use `commands`
when non-empty, otherwise split `template` into lines.  When `commands` is
empty and `template` is absent, the source dereferences `None` and crashes
with an attribute error, modelled as `none`. -/
def resolve_commands (p : Params) : Option (List String) :=
  if p.commands.isEmpty then p.template.map splitlines else some p.commands

/-- `run_nvue`: resolve the command list, then run the session pipeline.
`none` models the attribute-error crash of the resolution step. -/
def run_nvue (ex : Exec σ) (cm : Bool) (p : Params) (s : σ) :
    Option (St σ × Except Failure NvResult) :=
  (resolve_commands p).map fun cmds => run_nvue_resolved ex cm p cmds s

/-- Modelled from the spec: the host automation engine's argument-validation
layer (the `AnsibleModule` constructor, which is not part of this
repository) rejects a request in which both members of a declared
mutually-exclusive pair are populated, before any device command executes.
The pairs are exactly those declared in the source's `mutually_exclusive`
list in `main`; a boolean parameter is populated when it is true, the
command list when it is non-empty, the template when it is present. -/
def mutually_exclusive_violation (p : Params) : Bool :=
  (!p.commands.isEmpty && p.template.isSome) || (p.apply && p.atomic)
    || (p.confirm && p.atomic) || (p.confirm_no && p.atomic)
    || (p.confirm_yes && p.atomic) || (p.confirm_no && p.confirm_yes)
    || (p.confirm && p.confirm_yes) || (p.confirm && p.confirm_no)
    || (p.detach && p.atomic)

/-- The observable outcome of one module invocation: rejected by argument
validation (no device command runs), crashed in command resolution (no
device command runs), or ran the session pipeline. -/
inductive MainOutcome (σ : Type) where
  | rejected
  | crashed
  | ran (out : St σ × Except Failure NvResult)

/-- `main`: validate the arguments (modelled from the spec, see
`mutually_exclusive_violation`), then run `run_nvue`. -/
def main (ex : Exec σ) (cm : Bool) (p : Params) (s : σ) : MainOutcome σ :=
  if mutually_exclusive_violation p then .rejected
  else
    match run_nvue ex cm p s with
    | none => .crashed
    | some out => .ran out

/-- Every recorded call succeeded (exit status zero). -/
def callsOk (tr : List Call) : Bool :=
  tr.all fun c => c.res.rc == 0

/-- Some recorded call is the apply command. -/
def hasApply (tr : List Call) : Bool :=
  tr.any fun c => match c.ev with | .apply _ => true | _ => false

/-- Some recorded call is the save command. -/
def hasSave (tr : List Call) : Bool :=
  tr.any fun c => match c.ev with | .save => true | _ => false

/-- Some recorded call is the detach command. -/
def hasDetach (tr : List Call) : Bool :=
  tr.any fun c => match c.ev with | .detach => true | _ => false

/-- The lines of the recorded configuration commands, in order. -/
def cmdLines (tr : List Call) : List String :=
  tr.filterMap fun c => match c.ev with | .cmd l => some l | _ => none

/-- The trimmed stdout of each recorded configuration command, in order. -/
def cmdOuts (tr : List Call) : List String :=
  tr.filterMap fun c => match c.ev with | .cmd _ => some (strip c.res.stdout) | _ => none

/-- The non-empty trimmed stdout of the recorded apply commands. -/
def applyOuts (tr : List Call) : List String :=
  tr.filterMap fun c =>
    match c.ev with
    | .apply _ => if strip c.res.stdout = "" then none else some (strip c.res.stdout)
    | _ => none

/-- The non-empty trimmed stdout of the recorded save commands. -/
def saveOuts (tr : List Call) : List String :=
  tr.filterMap fun c =>
    match c.ev with
    | .save => if strip c.res.stdout = "" then none else some (strip c.res.stdout)
    | _ => none

/-- `sub` occurs as a substring of `t`. -/
def strContains (t sub : String) : Prop :=
  ∃ a b, t = a ++ (sub ++ b)

/-- A trace segment ending in its only failed call, whose recorded response
the failure report reproduces: all earlier calls succeeded, the last call
has a non-zero exit status, and the report carries the failing line, its
exit code, its stdout and its stderr. -/
def failTail (e : Failure) (tr : List Call) : Prop :=
  ∃ pre c, tr = pre ++ [c] ∧ callsOk pre = true ∧ c.res.rc ≠ 0 ∧
    e.msg = "Failed on line \x27" ++ c.ev.line ++ "\x27" ∧
    e.rc = c.res.rc ∧ e.stdout = c.res.stdout ∧ e.stderr = c.res.stderr

/-- Fail-fast behaviour of a whole session outcome: on success every
recorded call succeeded; on failure the trace stops at the first failed
call and the failure report reproduces it. -/
def failFast (out : St σ × Except Failure α) : Prop :=
  match out.2 with
  | .ok _ => callsOk out.1.2 = true
  | .error e => failTail e out.1.2

/-- Fail-fast behaviour of one pipeline step relative to the trace it
started from: the step only appends calls, all appended calls succeeded
when the step succeeded, and on failure the appended segment stops at its
only failed call, reproduced by the failure report. -/
def stepOk (st0 : St σ) (out : St σ × Except Failure α) : Prop :=
  match out.2 with
  | .ok _ => ∃ ext, out.1.2 = st0.2 ++ ext ∧ callsOk ext = true
  | .error e => ∃ ext, out.1.2 = st0.2 ++ ext ∧ failTail e ext

/-- Provenance of a recorded call in a session with effective flags
`doApply`/`doSave`, check-mode `cm`, apply options `opts` and resolved
command list `cmds`: it is the detach command, a diff snapshot, one of the
trimmed configuration commands, the apply command with exactly the
accumulated options (possible only when applying is effective outside
check-mode), or the save command (possible only when saving is requested
outside check-mode). -/
def callFrom (doApply doSave cm : Bool) (opts : String) (cmds : List String) (c : Call) : Prop :=
  c.ev = .detach ∨ c.ev = .diff ∨ (∃ l, c.ev = .cmd l ∧ l ∈ cmds.map strip) ∨
    (c.ev = .apply opts ∧ (doApply && !cm) = true) ∨
    (c.ev = .save ∧ (doSave && !cm) = true)

/-- A sample executor whose commands all succeed with empty output. -/
def exEmpty : Exec Unit := fun s _ => (⟨0, "", ""⟩, s)

/-- A sample executor whose commands all succeed with output `"x"`. -/
def exPending : Exec Unit := fun s _ => (⟨0, "x", ""⟩, s)

/-- The request built from the declared parameter defaults alone. -/
def pDefault : Params := {}

/-- A request with only `apply` set. -/
def pApply : Params := {apply := true}

/-- A request with only `confirm` set. -/
def pConfirm : Params := {confirm := true}

/-- A request with only `confirm_yes` set. -/
def pConfirmYes : Params := {confirm_yes := true}

/-- A request with both `commands` and `template` populated. -/
def pBothSources : Params :=
  {commands := ["set interface swp1"], template := some "set interface swp2"}

/-- A request with `atomic` and `save` set. -/
def pAtomicSave : Params := {atomic := true, save := true}

/-- `pAtomicSave` rewritten per the claimed equivalence: `atomic` off,
`detach` and `apply` on, and no save. -/
def pAtomicSaveRewritten : Params := {detach := true, apply := true}

theorem pbind_error (st : St σ) (e : Failure) (f : α → St σ → St σ × Except Failure β) :
    pbind (st, Except.error e) f = (st, Except.error e) := rfl

theorem pbind_ok (st : St σ) (a : α) (f : α → St σ → St σ × Except Failure β) :
    pbind (st, Except.ok a) f = f a st := rfl

theorem command_helper_eq (ex : Exec σ) (tag : Event) (st : St σ) :
    command_helper ex tag st =
      (((ex st.1 ("/usr/bin/nv " ++ tag.line)).2,
        st.2 ++ [⟨tag, (ex st.1 ("/usr/bin/nv " ++ tag.line)).1⟩]),
       if (ex st.1 ("/usr/bin/nv " ++ tag.line)).1.rc ≠ 0 then
         Except.error ⟨"Failed on line \x27" ++ tag.line ++ "\x27",
           (ex st.1 ("/usr/bin/nv " ++ tag.line)).1.rc,
           (ex st.1 ("/usr/bin/nv " ++ tag.line)).1.stdout,
           (ex st.1 ("/usr/bin/nv " ++ tag.line)).1.stderr⟩
       else Except.ok (strip (ex st.1 ("/usr/bin/nv " ++ tag.line)).1.stdout)) := by
  simp only [command_helper]
  split <;> rfl

theorem command_helper_trace (ex : Exec σ) (tag : Event) (st : St σ) :
    (command_helper ex tag st).1.2 =
      st.2 ++ [⟨tag, (ex st.1 ("/usr/bin/nv " ++ tag.line)).1⟩] := by
  rw [command_helper_eq]

theorem command_helper_ok_char (ex : Exec σ) (tag : Event) (st st' : St σ) (out : String)
    (h : command_helper ex tag st = (st', Except.ok out)) :
    ∃ rr : ExecResult, st'.2 = st.2 ++ [⟨tag, rr⟩] ∧ out = strip rr.stdout ∧ rr.rc = 0 := by
  rw [command_helper_eq] at h
  split at h
  · simp at h
  · rename_i hrc
    refine ⟨(ex st.1 ("/usr/bin/nv " ++ tag.line)).1, ?_⟩
    simp only [Prod.mk.injEq, Except.ok.injEq] at h
    obtain ⟨h1, h2⟩ := h
    subst h1; subst h2
    exact ⟨rfl, rfl, not_not.mp hrc⟩

theorem command_helper_error_char (ex : Exec σ) (tag : Event) (st st' : St σ) (e : Failure)
    (h : command_helper ex tag st = (st', Except.error e)) :
    ∃ rr : ExecResult, st'.2 = st.2 ++ [⟨tag, rr⟩] ∧ rr.rc ≠ 0 ∧
      e = ⟨"Failed on line \x27" ++ tag.line ++ "\x27", rr.rc, rr.stdout, rr.stderr⟩ := by
  rw [command_helper_eq] at h
  split at h
  · rename_i hrc
    refine ⟨(ex st.1 ("/usr/bin/nv " ++ tag.line)).1, ?_⟩
    simp only [Prod.mk.injEq, Except.error.injEq] at h
    obtain ⟨h1, h2⟩ := h
    subst h1; subst h2
    exact ⟨rfl, hrc, rfl⟩
  · simp at h

theorem commands_helper_char (ex : Exec σ) (cmds : List String) : ∀ st : St σ,
    ∃ ext, (commands_helper ex cmds st).1.2 = st.2 ++ ext ∧
      (∀ c ∈ ext, ∃ l, c.ev = Event.cmd l ∧ l ∈ cmds.map strip) ∧
      (match (commands_helper ex cmds st).2 with
       | .ok outs =>
           cmdLines ext = (cmds.map strip).filter (fun l => l != "") ∧
           outs = cmdOuts ext ∧ callsOk ext = true
       | .error e => failTail e ext) := by
  induction cmds with
  | nil =>
    intro st
    exact ⟨[], by simp [commands_helper], by simp,
      by simp [commands_helper, cmdLines, cmdOuts, callsOk]⟩
  | cons line rest ih =>
    intro st
    by_cases hl : (strip line) = ""
    · have heq : commands_helper ex (line :: rest) st = commands_helper ex rest st := by
        simp [commands_helper, hl]
      obtain ⟨ext, h1, h2, h3⟩ := ih st
      rw [heq]
      refine ⟨ext, h1, ?_, ?_⟩
      · intro c hc
        obtain ⟨l, hev, hm⟩ := h2 c hc
        exact ⟨l, hev, by simp only [List.map_cons]; exact List.mem_cons_of_mem _ hm⟩
      · rcases hres : (commands_helper ex rest st).2 with e | outs
        · rw [hres] at h3; simpa [hres] using h3
        · rw [hres] at h3
          obtain ⟨hL, hO, hK⟩ := h3
          exact ⟨by simpa [hl] using hL, hO, hK⟩
    · have heq : commands_helper ex (line :: rest) st =
          pbind (command_helper ex (.cmd (strip line)) st) fun out st' =>
            pbind (commands_helper ex rest st') fun outs st'' =>
              (st'', .ok (out :: outs)) := by
        simp [commands_helper, hl]
      rw [heq]
      rcases hch : command_helper ex (Event.cmd (strip line)) st with ⟨st1, res1⟩
      cases res1 with
      | error e =>
        obtain ⟨rr, htr, hrc, hee⟩ := command_helper_error_char ex _ st st1 e hch
        rw [pbind_error]
        refine ⟨[⟨.cmd (strip line), rr⟩], by simpa using htr, ?_, ?_⟩
        · intro c hc
          simp only [List.mem_singleton] at hc
          subst hc
          exact ⟨(strip line), rfl, by simp⟩
        · subst hee
          exact ⟨[], ⟨.cmd (strip line), rr⟩, by simp, by simp [callsOk], hrc, rfl, rfl, rfl, rfl⟩
      | ok out =>
        obtain ⟨rr, htr1, hout, hrc0⟩ := command_helper_ok_char ex _ st st1 out hch
        rw [pbind_ok]
        obtain ⟨ext, h1, h2, h3⟩ := ih st1
        rcases hrest : commands_helper ex rest st1 with ⟨st2, res2⟩
        rw [hrest] at h1 h3
        simp only at h1
        cases res2 with
        | error e =>
          rw [pbind_error]
          simp only at h3
          refine ⟨⟨.cmd (strip line), rr⟩ :: ext, ?_, ?_, ?_⟩
          · simp only
            rw [h1, htr1, List.append_assoc, List.singleton_append]
          · intro c hc
            rcases List.mem_cons.mp hc with hc | hc
            · subst hc; exact ⟨(strip line), rfl, by simp⟩
            · obtain ⟨l, hev, hm⟩ := h2 c hc
              exact ⟨l, hev, by simp only [List.map_cons]; exact List.mem_cons_of_mem _ hm⟩
          · obtain ⟨pre, cbad, hPre, hOkPre, hbad, hm1, hm2, hm3, hm4⟩ := h3
            refine ⟨⟨.cmd (strip line), rr⟩ :: pre, cbad, by rw [hPre]; rfl, ?_,
              hbad, hm1, hm2, hm3, hm4⟩
            simp [callsOk] at hOkPre ⊢
            exact ⟨hrc0, hOkPre⟩
        | ok outs =>
          rw [pbind_ok]
          simp only at h3
          obtain ⟨hL, hO, hK⟩ := h3
          refine ⟨⟨.cmd (strip line), rr⟩ :: ext, ?_, ?_, ?_, ?_, ?_⟩
          · simp only
            rw [h1, htr1, List.append_assoc, List.singleton_append]
          · intro c hc
            rcases List.mem_cons.mp hc with hc | hc
            · subst hc; exact ⟨(strip line), rfl, by simp⟩
            · obtain ⟨l, hev, hm⟩ := h2 c hc
              exact ⟨l, hev, by simp only [List.map_cons]; exact List.mem_cons_of_mem _ hm⟩
          · simp only [cmdLines, List.filterMap_cons] at hL ⊢
            simp only [List.map_cons, List.filter_cons]
            have : ((strip line) != "") = true := by simpa using hl
            rw [this]
            simpa [cmdLines] using congrArg (List.cons (strip line)) hL
          · simp only [cmdOuts, List.filterMap_cons] at hO ⊢
            rw [hout]
            exact congrArg (List.cons (strip rr.stdout)) hO
          · simp [callsOk] at hK ⊢
            exact ⟨hrc0, hK⟩

theorem callsOk_append (a b : List Call) : callsOk (a ++ b) = (callsOk a && callsOk b) := by
  simp [callsOk, List.all_append]

theorem failTail_cons_left (e : Failure) (a b : List Call)
    (ha : callsOk a = true) (hb : failTail e b) : failTail e (a ++ b) := by
  obtain ⟨pre, c, h1, h2, h3, h4, h5, h6, h7⟩ := hb
  refine ⟨a ++ pre, c, by rw [h1, List.append_assoc], ?_, h3, h4, h5, h6, h7⟩
  rw [callsOk_append, ha, h2]
  rfl

theorem pbind_stepOk (x : St σ × Except Failure α) (f : α → St σ → St σ × Except Failure β)
    (st0 : St σ) (hx : stepOk st0 x) (hf : ∀ a st, stepOk st (f a st)) :
    stepOk st0 (pbind x f) := by
  obtain ⟨stx, resx⟩ := x
  cases resx with
  | error e => rw [pbind_error]; exact hx
  | ok a =>
    rw [pbind_ok]
    have hx' : ∃ ext, stx.2 = st0.2 ++ ext ∧ callsOk ext = true := hx
    obtain ⟨ext1, h1, hOk1⟩ := hx'
    have hfa := hf a stx
    rcases hf2 : f a stx with ⟨stf, resf⟩
    rw [hf2] at hfa
    cases resf with
    | error e =>
      have hfa' : ∃ ext, stf.2 = stx.2 ++ ext ∧ failTail e ext := hfa
      obtain ⟨ext2, h2, hft⟩ := hfa'
      show ∃ ext, stf.2 = st0.2 ++ ext ∧ failTail e ext
      exact ⟨ext1 ++ ext2, by rw [h2, h1, List.append_assoc],
        failTail_cons_left e ext1 ext2 hOk1 hft⟩
    | ok b =>
      have hfa' : ∃ ext, stf.2 = stx.2 ++ ext ∧ callsOk ext = true := hfa
      obtain ⟨ext2, h2, hOk2⟩ := hfa'
      show ∃ ext, stf.2 = st0.2 ++ ext ∧ callsOk ext = true
      exact ⟨ext1 ++ ext2, by rw [h2, h1, List.append_assoc],
        by rw [callsOk_append, hOk1, hOk2]; rfl⟩

theorem command_helper_stepOk (ex : Exec σ) (tag : Event) (st : St σ) :
    stepOk st (command_helper ex tag st) := by
  rcases hch : command_helper ex tag st with ⟨st', res⟩
  cases res with
  | error e =>
    obtain ⟨rr, htr, hrc, hee⟩ := command_helper_error_char ex tag st st' e hch
    show ∃ ext, st'.2 = st.2 ++ ext ∧ failTail e ext
    subst hee
    exact ⟨[⟨tag, rr⟩], htr, ⟨[], ⟨tag, rr⟩, rfl, rfl, hrc, rfl, rfl, rfl, rfl⟩⟩
  | ok out =>
    obtain ⟨rr, htr, hout, hrc0⟩ := command_helper_ok_char ex tag st st' out hch
    show ∃ ext, st'.2 = st.2 ++ ext ∧ callsOk ext = true
    exact ⟨[⟨tag, rr⟩], htr, by simp [callsOk, hrc0]⟩

theorem commands_helper_stepOk (ex : Exec σ) (cmds : List String) (st : St σ) :
    stepOk st (commands_helper ex cmds st) := by
  obtain ⟨ext, h1, h2, h3⟩ := commands_helper_char ex cmds st
  rcases hc : commands_helper ex cmds st with ⟨st', res⟩
  rw [hc] at h1 h3
  cases res with
  | error e =>
    show ∃ ext, st'.2 = st.2 ++ ext ∧ failTail e ext
    exact ⟨ext, h1, h3⟩
  | ok outs =>
    show ∃ ext, st'.2 = st.2 ++ ext ∧ callsOk ext = true
    have h3' : cmdLines ext = (cmds.map strip).filter (fun l => l != "") ∧
        outs = cmdOuts ext ∧ callsOk ext = true := h3
    exact ⟨ext, h1, h3'.2.2⟩

theorem detach_phase_stepOk (ex : Exec σ) (d cm : Bool) (st : St σ) :
    stepOk st (detach_phase ex d cm st) := by
  unfold detach_phase
  split
  · exact pbind_stepOk _ _ _ (command_helper_stepOk ex .detach st)
      (fun a st' => ⟨[], by simp, rfl⟩)
  · exact ⟨[], by simp, rfl⟩

theorem apply_phase_stepOk (ex : Exec σ) (cond : Bool) (opts : String) (ch : Bool)
    (out : List String) (st : St σ) : stepOk st (apply_phase ex cond opts ch out st) := by
  unfold apply_phase
  split
  · exact pbind_stepOk _ _ _ (command_helper_stepOk ex (.apply opts) st)
      (fun a st' => ⟨[], by simp, rfl⟩)
  · exact ⟨[], by simp, rfl⟩

theorem save_phase_stepOk (ex : Exec σ) (cond : Bool) (ch : Bool)
    (out : List String) (st : St σ) : stepOk st (save_phase ex cond ch out st) := by
  unfold save_phase
  split
  · exact pbind_stepOk _ _ _ (command_helper_stepOk ex .save st)
      (fun a st' => ⟨[], by simp, rfl⟩)
  · exact ⟨[], by simp, rfl⟩

theorem run_rest_stepOk (ex : Exec σ) (cm a sv : Bool) (opts : String) (cmds : List String)
    (st : St σ) : stepOk st (run_rest ex cm a sv opts cmds st) := by
  unfold run_rest check_pending
  refine pbind_stepOk _ _ _ (command_helper_stepOk ex .diff st) (fun before st1 => ?_)
  refine pbind_stepOk _ _ _ (commands_helper_stepOk ex cmds st1) (fun output st2 => ?_)
  refine pbind_stepOk _ _ _ (command_helper_stepOk ex .diff st2) (fun after st3 => ?_)
  refine pbind_stepOk _ _ _ (apply_phase_stepOk ex _ opts _ _ st3) (fun co st4 => ?_)
  refine pbind_stepOk _ _ _ (save_phase_stepOk ex _ _ _ st4) (fun co2 st5 => ?_)
  exact ⟨[], by simp, rfl⟩

theorem run_core_failFast (ex : Exec σ) (cm a d sv : Bool) (opts : String)
    (cmds : List String) (s : σ) : failFast (run_core ex cm a d sv opts cmds s) := by
  have h : stepOk ((s, []) : St σ) (run_core ex cm a d sv opts cmds s) := by
    unfold run_core
    exact pbind_stepOk _ _ _ (detach_phase_stepOk ex d cm (s, []))
      (fun u st1 => run_rest_stepOk ex cm a sv opts cmds st1)
  rcases hc : run_core ex cm a d sv opts cmds s with ⟨st', res⟩
  rw [hc] at h
  cases res with
  | error e =>
    show failTail e st'.2
    have h' : ∃ ext, st'.2 = [] ++ ext ∧ failTail e ext := h
    obtain ⟨ext, h1, h2⟩ := h'
    rw [List.nil_append] at h1
    rw [h1]
    exact h2
  | ok r =>
    show callsOk st'.2 = true
    have h' : ∃ ext, st'.2 = [] ++ ext ∧ callsOk ext = true := h
    obtain ⟨ext, h1, h2⟩ := h'
    rw [List.nil_append] at h1
    rw [h1]
    exact h2

theorem pbind_ext {P : Call → Prop} (x : St σ × Except Failure α)
    (f : α → St σ → St σ × Except Failure β) (st0 : St σ)
    (hx : ∃ ext, x.1.2 = st0.2 ++ ext ∧ ∀ c ∈ ext, P c)
    (hf : ∀ a st, ∃ ext, (f a st).1.2 = st.2 ++ ext ∧ ∀ c ∈ ext, P c) :
    ∃ ext, (pbind x f).1.2 = st0.2 ++ ext ∧ ∀ c ∈ ext, P c := by
  obtain ⟨stx, resx⟩ := x
  cases resx with
  | error e => rw [pbind_error]; exact hx
  | ok a =>
    rw [pbind_ok]
    obtain ⟨e1, h1, hp1⟩ := hx
    have h1' : stx.2 = st0.2 ++ e1 := h1
    obtain ⟨e2, h2, hp2⟩ := hf a stx
    refine ⟨e1 ++ e2, by rw [h2, h1', List.append_assoc], ?_⟩
    intro c hc
    rcases List.mem_append.mp hc with hc | hc
    exacts [hp1 c hc, hp2 c hc]

theorem command_helper_ext {P : Call → Prop} (ex : Exec σ) (tag : Event) (st : St σ)
    (h : ∀ rr, P ⟨tag, rr⟩) :
    ∃ ext, (command_helper ex tag st).1.2 = st.2 ++ ext ∧ ∀ c ∈ ext, P c := by
  refine ⟨[⟨tag, (ex st.1 ("/usr/bin/nv " ++ tag.line)).1⟩], command_helper_trace ex tag st, ?_⟩
  intro c hc
  simp only [List.mem_singleton] at hc
  subst hc
  exact h _

theorem commands_helper_ext {P : Call → Prop} (ex : Exec σ) (cmds : List String) (st : St σ)
    (h : ∀ (l : String) (rr : ExecResult), l ∈ cmds.map strip → P ⟨.cmd l, rr⟩) :
    ∃ ext, (commands_helper ex cmds st).1.2 = st.2 ++ ext ∧ ∀ c ∈ ext, P c := by
  obtain ⟨ext, h1, h2, _⟩ := commands_helper_char ex cmds st
  refine ⟨ext, h1, fun c hc => ?_⟩
  obtain ⟨l, hev, hm⟩ := h2 c hc
  obtain ⟨ev, res⟩ := c
  simp only at hev
  subst hev
  exact h l res hm

theorem detach_phase_ext {P : Call → Prop} (ex : Exec σ) (d cm : Bool) (st : St σ)
    (h : ∀ rr, P ⟨.detach, rr⟩) :
    ∃ ext, (detach_phase ex d cm st).1.2 = st.2 ++ ext ∧ ∀ c ∈ ext, P c := by
  unfold detach_phase
  split
  · exact pbind_ext _ _ _ (command_helper_ext ex .detach st h)
      (fun a st' => ⟨[], by simp, by simp⟩)
  · exact ⟨[], by simp, by simp⟩

theorem apply_phase_ext {P : Call → Prop} (ex : Exec σ) (cond : Bool) (opts : String)
    (ch : Bool) (out : List String) (st : St σ)
    (h : cond = true → ∀ rr, P ⟨.apply opts, rr⟩) :
    ∃ ext, (apply_phase ex cond opts ch out st).1.2 = st.2 ++ ext ∧ ∀ c ∈ ext, P c := by
  unfold apply_phase
  split
  · rename_i hc
    exact pbind_ext _ _ _ (command_helper_ext ex (.apply opts) st (h hc))
      (fun a st' => ⟨[], by simp, by simp⟩)
  · exact ⟨[], by simp, by simp⟩

theorem save_phase_ext {P : Call → Prop} (ex : Exec σ) (cond : Bool)
    (ch : Bool) (out : List String) (st : St σ)
    (h : cond = true → ∀ rr, P ⟨.save, rr⟩) :
    ∃ ext, (save_phase ex cond ch out st).1.2 = st.2 ++ ext ∧ ∀ c ∈ ext, P c := by
  unfold save_phase
  split
  · rename_i hc
    exact pbind_ext _ _ _ (command_helper_ext ex .save st (h hc))
      (fun a st' => ⟨[], by simp, by simp⟩)
  · exact ⟨[], by simp, by simp⟩

theorem run_rest_ext (ex : Exec σ) (cm a sv : Bool) (opts : String) (cmds : List String)
    (st : St σ) :
    ∃ ext, (run_rest ex cm a sv opts cmds st).1.2 = st.2 ++ ext ∧
      ∀ c ∈ ext, callFrom a sv cm opts cmds c := by
  unfold run_rest check_pending
  refine pbind_ext _ _ _
    (command_helper_ext ex .diff st (fun rr => Or.inr (Or.inl rfl))) (fun before st1 => ?_)
  refine pbind_ext _ _ _
    (commands_helper_ext ex cmds st1
      (fun l rr hm => Or.inr (Or.inr (Or.inl ⟨l, rfl, hm⟩)))) (fun output st2 => ?_)
  refine pbind_ext _ _ _
    (command_helper_ext ex .diff st2 (fun rr => Or.inr (Or.inl rfl))) (fun after st3 => ?_)
  refine pbind_ext _ _ _ (apply_phase_ext ex _ opts _ _ st3 ?_) (fun co st4 => ?_)
  · intro hc rr
    refine Or.inr (Or.inr (Or.inr (Or.inl ⟨rfl, ?_⟩)))
    simp only [Bool.and_eq_true] at hc
    simp [hc.1.2, hc.2]
  · refine pbind_ext _ _ _ (save_phase_ext ex _ _ _ st4 ?_) (fun co2 st5 => ?_)
    · intro hc rr
      exact Or.inr (Or.inr (Or.inr (Or.inr ⟨rfl, hc⟩)))
    · exact ⟨[], by simp, by simp⟩

theorem run_core_events (ex : Exec σ) (cm a d sv : Bool) (opts : String)
    (cmds : List String) (s : σ) :
    ∀ c ∈ (run_core ex cm a d sv opts cmds s).1.2, callFrom a sv cm opts cmds c := by
  have h : ∃ ext, (run_core ex cm a d sv opts cmds s).1.2 = ((s, []) : St σ).2 ++ ext ∧
      ∀ c ∈ ext, callFrom a sv cm opts cmds c := by
    unfold run_core
    exact pbind_ext _ _ _ (detach_phase_ext ex d cm (s, []) (fun rr => Or.inl rfl))
      (fun u st1 => run_rest_ext ex cm a sv opts cmds st1)
  obtain ⟨ext, h1, h2⟩ := h
  have h1' : (run_core ex cm a d sv opts cmds s).1.2 = ext := h1
  intro c hc
  rw [h1'] at hc
  exact h2 c hc

theorem run_core_detach_first (ex : Exec σ) (cm a d sv : Bool) (opts : String)
    (cmds : List String) (s : σ) (h : (d || cm) = true) :
    ∃ rr ext, (run_core ex cm a d sv opts cmds s).1.2 = ⟨Event.detach, rr⟩ :: ext := by
  unfold run_core detach_phase
  rw [if_pos h]
  rcases hch : command_helper ex Event.detach ((s, []) : St σ) with ⟨st1, res1⟩
  have htr := command_helper_trace ex Event.detach ((s, []) : St σ)
  rw [hch] at htr
  have htr2 : st1.2 = [⟨Event.detach, (ex s ("/usr/bin/nv " ++ Event.line Event.detach)).1⟩] :=
    htr
  cases res1 with
  | error e =>
    rw [pbind_error, pbind_error]
    exact ⟨(ex s ("/usr/bin/nv " ++ Event.line Event.detach)).1, [], htr2⟩
  | ok u =>
    simp only [pbind_ok]
    obtain ⟨ext2, hext, _⟩ := run_rest_ext ex cm a sv opts cmds st1
    refine ⟨(ex s ("/usr/bin/nv " ++ Event.line Event.detach)).1, ext2, ?_⟩
    rw [hext, htr2]
    rfl

theorem hasApply_eq_false_of (tr : List Call) (h : ∀ c ∈ tr, ∀ o, c.ev ≠ Event.apply o) :
    hasApply tr = false := by
  simp only [hasApply]
  rw [List.any_eq_false]
  intro c hc
  cases hev : c.ev with
  | apply o => exact absurd hev (h c hc o)
  | detach => simp [hev]
  | diff => simp [hev]
  | cmd l => simp [hev]
  | save => simp [hev]

theorem detach_phase_ok_char (ex : Exec σ) (d cm : Bool) (st0 stD : St σ) (u : Unit)
    (h : detach_phase ex d cm st0 = (stD, Except.ok u)) :
    ∃ trD, stD.2 = st0.2 ++ trD ∧ ∀ c ∈ trD, c.ev = Event.detach := by
  unfold detach_phase at h
  split at h
  · rcases hch : command_helper ex Event.detach st0 with ⟨st1, res1⟩
    rw [hch] at h
    cases res1 with
    | error e => rw [pbind_error] at h; simp at h
    | ok out =>
      rw [pbind_ok] at h
      obtain ⟨rr, htr, _, _⟩ := command_helper_ok_char ex _ st0 st1 out hch
      simp only [Prod.mk.injEq] at h
      obtain ⟨h1, _⟩ := h
      subst h1
      refine ⟨[⟨Event.detach, rr⟩], htr, ?_⟩
      intro c hc
      simp only [List.mem_singleton] at hc
      subst hc
      rfl
  · simp only [Prod.mk.injEq] at h
    obtain ⟨h1, _⟩ := h
    subst h1
    exact ⟨[], by simp, by simp⟩

theorem apply_phase_ok_char (ex : Exec σ) (cond : Bool) (opts : String) (ch : Bool)
    (out : List String) (st0 st' : St σ) (co : Bool × List String)
    (h : apply_phase ex cond opts ch out st0 = (st', Except.ok co)) :
    ∃ trA, st'.2 = st0.2 ++ trA ∧
      (cond = true → (∃ rr, trA = [⟨Event.apply opts, rr⟩]) ∧ co.1 = true) ∧
      (cond = false → trA = [] ∧ co = (ch, out)) ∧
      co.2 = out ++ applyOuts trA := by
  unfold apply_phase at h
  split at h
  · rename_i hc
    rcases hch : command_helper ex (Event.apply opts) st0 with ⟨st1, res1⟩
    rw [hch] at h
    cases res1 with
    | error e => rw [pbind_error] at h; simp at h
    | ok ret =>
      rw [pbind_ok] at h
      obtain ⟨rr, htr, hret, _⟩ := command_helper_ok_char ex _ st0 st1 ret hch
      simp only [Prod.mk.injEq, Except.ok.injEq] at h
      obtain ⟨h1, h2⟩ := h
      subst h1
      subst h2
      refine ⟨[⟨Event.apply opts, rr⟩], htr, ?_, ?_, ?_⟩
      · intro _; exact ⟨⟨rr, rfl⟩, rfl⟩
      · intro hcf; rw [hc] at hcf; exact absurd hcf (by simp)
      · show (if ret ≠ "" then out ++ [ret] else out) = out ++ applyOuts [⟨Event.apply opts, rr⟩]
        rw [hret]
        by_cases hr : strip rr.stdout = ""
        · simp [applyOuts, hr]
        · simp [applyOuts, hr]
  · rename_i hc
    simp only [Prod.mk.injEq, Except.ok.injEq] at h
    obtain ⟨h1, h2⟩ := h
    subst h1
    subst h2
    refine ⟨[], by simp, ?_, ?_, ?_⟩
    · intro hct; exact absurd hct hc
    · intro _; exact ⟨rfl, rfl⟩
    · show out = out ++ applyOuts []
      simp [applyOuts]

theorem save_phase_ok_char (ex : Exec σ) (cond : Bool) (ch : Bool)
    (out : List String) (st0 st' : St σ) (co : Bool × List String)
    (h : save_phase ex cond ch out st0 = (st', Except.ok co)) :
    ∃ trS, st'.2 = st0.2 ++ trS ∧
      (cond = true → (∃ rr, trS = [⟨Event.save, rr⟩]) ∧ co.1 = true) ∧
      (cond = false → trS = [] ∧ co = (ch, out)) ∧
      co.2 = out ++ saveOuts trS := by
  unfold save_phase at h
  split at h
  · rename_i hc
    rcases hch : command_helper ex Event.save st0 with ⟨st1, res1⟩
    rw [hch] at h
    cases res1 with
    | error e => rw [pbind_error] at h; simp at h
    | ok ret =>
      rw [pbind_ok] at h
      obtain ⟨rr, htr, hret, _⟩ := command_helper_ok_char ex _ st0 st1 ret hch
      simp only [Prod.mk.injEq, Except.ok.injEq] at h
      obtain ⟨h1, h2⟩ := h
      subst h1
      subst h2
      refine ⟨[⟨Event.save, rr⟩], htr, ?_, ?_, ?_⟩
      · intro _; exact ⟨⟨rr, rfl⟩, rfl⟩
      · intro hcf; rw [hc] at hcf; exact absurd hcf (by simp)
      · show (if ret ≠ "" then out ++ [ret] else out) = out ++ saveOuts [⟨Event.save, rr⟩]
        rw [hret]
        by_cases hr : strip rr.stdout = ""
        · simp [saveOuts, hr]
        · simp [saveOuts, hr]
  · rename_i hc
    simp only [Prod.mk.injEq, Except.ok.injEq] at h
    obtain ⟨h1, h2⟩ := h
    subst h1
    subst h2
    refine ⟨[], by simp, ?_, ?_, ?_⟩
    · intro hct; exact absurd hct hc
    · intro _; exact ⟨rfl, rfl⟩
    · show out = out ++ saveOuts []
      simp [saveOuts]

theorem run_core_ok (ex : Exec σ) (cm a d sv : Bool) (opts : String) (cmds : List String)
    (s : σ) (st : St σ) (r : NvResult)
    (h : run_core ex cm a d sv opts cmds s = (st, Except.ok r)) :
    ∃ (trD : List Call) (c1 : Call) (trC : List Call) (c2 : Call) (trA trS : List Call),
      st.2 = trD ++ c1 :: (trC ++ c2 :: (trA ++ trS)) ∧
      (∀ c ∈ trD, c.ev = Event.detach) ∧
      c1.ev = Event.diff ∧ c2.ev = Event.diff ∧
      r.before = strip c1.res.stdout ∧ r.after = strip c2.res.stdout ∧
      (∀ c ∈ trC, ∃ l, c.ev = Event.cmd l) ∧
      cmdLines trC = (cmds.map strip).filter (fun l => l != "") ∧
      (((r.after != "") && a && !cm) = true → ∃ rr, trA = [⟨Event.apply opts, rr⟩]) ∧
      (((r.after != "") && a && !cm) = false → trA = []) ∧
      ((sv && !cm) = true → ∃ rr, trS = [⟨Event.save, rr⟩]) ∧
      ((sv && !cm) = false → trS = []) ∧
      r.changed = (if (sv && !cm) = true then true
                   else if ((r.after != "") && a && !cm) = true then true
                   else (r.before != r.after)) ∧
      r.output = cmdOuts trC ++ (applyOuts trA ++ saveOuts trS) := by
  unfold run_core at h
  rcases hD : detach_phase ex d cm ((s, []) : St σ) with ⟨stD, resD⟩
  rw [hD] at h
  cases resD with
  | error e => rw [pbind_error] at h; simp at h
  | ok u =>
    simp only [pbind_ok] at h
    obtain ⟨trD, hDtr, hDev⟩ := detach_phase_ok_char ex d cm _ stD u hD
    have hDtr' : stD.2 = trD := by
      have h0 : stD.2 = [] ++ trD := hDtr
      rwa [List.nil_append] at h0
    unfold run_rest check_pending at h
    rcases h1c : command_helper ex Event.diff stD with ⟨st1, res1⟩
    rw [h1c] at h
    cases res1 with
    | error e => rw [pbind_error] at h; simp at h
    | ok before =>
      simp only [pbind_ok] at h
      obtain ⟨r1, htr1, hbef, _⟩ := command_helper_ok_char ex _ stD st1 before h1c
      obtain ⟨extC, htrC, hkind, hmat⟩ := commands_helper_char ex cmds st1
      rcases h2c : commands_helper ex cmds st1 with ⟨st2, res2⟩
      rw [h2c] at h htrC hmat
      cases res2 with
      | error e => rw [pbind_error] at h; simp at h
      | ok outs =>
        simp only [pbind_ok] at h
        have htrC' : st2.2 = st1.2 ++ extC := htrC
        have hmat' : cmdLines extC = (cmds.map strip).filter (fun l => l != "") ∧
            outs = cmdOuts extC ∧ callsOk extC = true := hmat
        rcases h3c : command_helper ex Event.diff st2 with ⟨st3, res3⟩
        rw [h3c] at h
        cases res3 with
        | error e => rw [pbind_error] at h; simp at h
        | ok after =>
          simp only [pbind_ok] at h
          obtain ⟨r2, htr3, haft, _⟩ := command_helper_ok_char ex _ st2 st3 after h3c
          rcases h4c : apply_phase ex ((after != "") && a && !cm) opts (before != after)
              outs st3 with ⟨st4, res4⟩
          rw [h4c] at h
          cases res4 with
          | error e => rw [pbind_error] at h; simp at h
          | ok co =>
            simp only [pbind_ok] at h
            obtain ⟨trA, htrA, hAt, hAf, hAout⟩ :=
              apply_phase_ok_char ex _ opts _ outs st3 st4 co h4c
            rcases h5c : save_phase ex (sv && !cm) co.1 co.2 st4 with ⟨st5, res5⟩
            rw [h5c] at h
            cases res5 with
            | error e => rw [pbind_error] at h; simp at h
            | ok co2 =>
              simp only [pbind_ok] at h
              obtain ⟨trS, htrS, hSt, hSf, hSout⟩ :=
                save_phase_ok_char ex _ co.1 co.2 st4 st5 co2 h5c
              simp only [Prod.mk.injEq, Except.ok.injEq] at h
              obtain ⟨hst, hres⟩ := h
              subst hst
              have hrc : r.changed = co2.1 := by rw [← hres]
              have hrb : r.before = before := by rw [← hres]
              have hra : r.after = after := by rw [← hres]
              have hro : r.output = co2.2 := by rw [← hres]
              refine ⟨trD, ⟨Event.diff, r1⟩, extC, ⟨Event.diff, r2⟩, trA, trS,
                ?_, hDev, rfl, rfl, hrb.trans hbef, hra.trans haft, ?_, hmat'.1,
                ?_, ?_, ?_, ?_, ?_, ?_⟩
              · rw [htrS, htrA, htr3, htrC', htr1, hDtr']
                simp [List.append_assoc]
              · intro c hc
                obtain ⟨l, hev, _⟩ := hkind c hc
                exact ⟨l, hev⟩
              · intro hcnd
                rw [hra] at hcnd
                exact (hAt hcnd).1
              · intro hcnd
                rw [hra] at hcnd
                exact (hAf hcnd).1
              · intro hcnd
                exact (hSt hcnd).1
              · intro hcnd
                exact (hSf hcnd).1
              · rw [hrc, hrb, hra]
                cases hS0 : (sv && !cm) with
                | true =>
                  rw [if_pos rfl]
                  exact (hSt hS0).2
                | false =>
                  rw [if_neg (by simp)]
                  obtain ⟨_, hco2⟩ := hSf hS0
                  have hc1 : co2.1 = co.1 := by rw [hco2]
                  rw [hc1]
                  cases hA0 : ((after != "") && a && !cm) with
                  | true =>
                    rw [if_pos rfl]
                    exact (hAt hA0).2
                  | false =>
                    rw [if_neg (by simp)]
                    obtain ⟨_, hco⟩ := hAf hA0
                    rw [hco]
              · rw [hro, hSout, hAout, hmat'.2.1, List.append_assoc]

theorem hasSave_eq_false_of (tr : List Call) (h : ∀ c ∈ tr, c.ev ≠ Event.save) :
    hasSave tr = false := by
  simp only [hasSave]
  rw [List.any_eq_false]
  intro c hc
  cases hev : c.ev with
  | save => exact absurd hev (h c hc)
  | detach => simp [hev]
  | diff => simp [hev]
  | cmd l => simp [hev]
  | apply o => simp [hev]

theorem hasApply_append (x y : List Call) : hasApply (x ++ y) = (hasApply x || hasApply y) := by
  simp [hasApply, List.any_append]

theorem hasSave_append (x y : List Call) : hasSave (x ++ y) = (hasSave x || hasSave y) := by
  simp [hasSave, List.any_append]

theorem cmdOuts_append (x y : List Call) : cmdOuts (x ++ y) = cmdOuts x ++ cmdOuts y :=
  List.filterMap_append x y _

theorem cmdLines_append (x y : List Call) : cmdLines (x ++ y) = cmdLines x ++ cmdLines y :=
  List.filterMap_append x y _

theorem applyOuts_append (x y : List Call) : applyOuts (x ++ y) = applyOuts x ++ applyOuts y :=
  List.filterMap_append x y _

theorem saveOuts_append (x y : List Call) : saveOuts (x ++ y) = saveOuts x ++ saveOuts y :=
  List.filterMap_append x y _

theorem cmdOuts_eq_nil_of (l : List Call) (h : ∀ c ∈ l, ∀ s', c.ev ≠ Event.cmd s') :
    cmdOuts l = [] := by
  rw [cmdOuts, List.filterMap_eq_nil_iff]
  intro c hc
  cases hev : c.ev with
  | cmd l' => exact absurd hev (h c hc l')
  | detach => simp
  | diff => simp
  | apply o => simp
  | save => simp

theorem cmdLines_eq_nil_of (l : List Call) (h : ∀ c ∈ l, ∀ s', c.ev ≠ Event.cmd s') :
    cmdLines l = [] := by
  rw [cmdLines, List.filterMap_eq_nil_iff]
  intro c hc
  cases hev : c.ev with
  | cmd l' => exact absurd hev (h c hc l')
  | detach => simp
  | diff => simp
  | apply o => simp
  | save => simp

theorem applyOuts_eq_nil_of (l : List Call) (h : ∀ c ∈ l, ∀ o, c.ev ≠ Event.apply o) :
    applyOuts l = [] := by
  rw [applyOuts, List.filterMap_eq_nil_iff]
  intro c hc
  cases hev : c.ev with
  | apply o => exact absurd hev (h c hc o)
  | detach => simp
  | diff => simp
  | cmd l' => simp
  | save => simp

theorem saveOuts_eq_nil_of (l : List Call) (h : ∀ c ∈ l, c.ev ≠ Event.save) :
    saveOuts l = [] := by
  rw [saveOuts, List.filterMap_eq_nil_iff]
  intro c hc
  cases hev : c.ev with
  | save => exact absurd hev (h c hc)
  | detach => simp
  | diff => simp
  | cmd l' => simp
  | apply o => simp

theorem cmdOuts_length (l : List Call) : (cmdOuts l).length = (cmdLines l).length := by
  induction l with
  | nil => rfl
  | cons c tr ih =>
    simp only [cmdOuts, cmdLines, List.filterMap_cons] at ih ⊢
    cases hev : c.ev with
    | cmd l' => simp [ih]
    | detach => simpa using ih
    | diff => simpa using ih
    | apply o => simpa using ih
    | save => simpa using ih

theorem filter_trim_length (cmds : List String) :
    ((cmds.map strip).filter (fun l => l != "")).length =
      (cmds.filter (fun l => strip l != "")).length := by
  induction cmds with
  | nil => rfl
  | cons line rest ih =>
    simp only [List.map_cons, List.filter_cons]
    by_cases hl : ((strip line) != "") = true
    · rw [if_pos hl, if_pos hl]
      simp [ih]
    · rw [if_neg hl, if_neg hl]
      exact ih

theorem run_resolved_ok_spec (ex : Exec σ) (cm : Bool) (p : Params) (cmds : List String)
    (s : σ) (st : St σ) (r : NvResult)
    (h : run_nvue_resolved ex cm p cmds s = (st, Except.ok r)) :
    hasApply st.2 = ((r.after != "") && effApply p && !cm) ∧
    hasSave st.2 = (p.save && !cm) ∧
    r.changed = (if (p.save && !cm) = true then true
                 else if ((r.after != "") && effApply p && !cm) = true then true
                 else (r.before != r.after)) ∧
    r.output = cmdOuts st.2 ++ (applyOuts st.2 ++ saveOuts st.2) ∧
    cmdLines st.2 = (cmds.map strip).filter (fun l => l != "") ∧
    (applyOuts st.2).length ≤ 1 ∧ (saveOuts st.2).length ≤ 1 := by
  unfold run_nvue_resolved at h
  obtain ⟨trD, c1, trC, c2, trA, trS, htr, hDev, hc1, hc2, hrb, hra, hkind, hlines,
    hAt, hAf, hSt, hSf, hch, hout⟩ := run_core_ok ex cm (effApply p) (effDetach p) p.save
      (applyOptions p) cmds s st r h
  have htr' : st.2 = trD ++ ([c1] ++ (trC ++ ([c2] ++ (trA ++ trS)))) := by
    rw [htr]; simp
  have hDnoA : ∀ c ∈ trD, ∀ o, c.ev ≠ Event.apply o := fun c hc o => by
    rw [hDev c hc]; simp
  have hDnoS : ∀ c ∈ trD, c.ev ≠ Event.save := fun c hc => by rw [hDev c hc]; simp
  have hDnoC : ∀ c ∈ trD, ∀ s', c.ev ≠ Event.cmd s' := fun c hc s' => by
    rw [hDev c hc]; simp
  have h1noA : ∀ c ∈ [c1], ∀ o, c.ev ≠ Event.apply o := by
    intro c hc o; simp only [List.mem_singleton] at hc; subst hc; rw [hc1]; simp
  have h1noS : ∀ c ∈ [c1], c.ev ≠ Event.save := by
    intro c hc; simp only [List.mem_singleton] at hc; subst hc; rw [hc1]; simp
  have h1noC : ∀ c ∈ [c1], ∀ s', c.ev ≠ Event.cmd s' := by
    intro c hc s'; simp only [List.mem_singleton] at hc; subst hc; rw [hc1]; simp
  have h2noA : ∀ c ∈ [c2], ∀ o, c.ev ≠ Event.apply o := by
    intro c hc o; simp only [List.mem_singleton] at hc; subst hc; rw [hc2]; simp
  have h2noS : ∀ c ∈ [c2], c.ev ≠ Event.save := by
    intro c hc; simp only [List.mem_singleton] at hc; subst hc; rw [hc2]; simp
  have h2noC : ∀ c ∈ [c2], ∀ s', c.ev ≠ Event.cmd s' := by
    intro c hc s'; simp only [List.mem_singleton] at hc; subst hc; rw [hc2]; simp
  have hCnoA : ∀ c ∈ trC, ∀ o, c.ev ≠ Event.apply o := fun c hc o => by
    obtain ⟨l, hl⟩ := hkind c hc; rw [hl]; simp
  have hCnoS : ∀ c ∈ trC, c.ev ≠ Event.save := fun c hc => by
    obtain ⟨l, hl⟩ := hkind c hc; rw [hl]; simp
  have hAnoS : ∀ c ∈ trA, c.ev ≠ Event.save := by
    intro c hc
    cases hA0 : ((r.after != "") && effApply p && !cm) with
    | true =>
      obtain ⟨rr, he⟩ := hAt hA0
      rw [he] at hc
      simp only [List.mem_singleton] at hc
      subst hc; simp
    | false => rw [hAf hA0] at hc; simp at hc
  have hAnoC : ∀ c ∈ trA, ∀ s', c.ev ≠ Event.cmd s' := by
    intro c hc s'
    cases hA0 : ((r.after != "") && effApply p && !cm) with
    | true =>
      obtain ⟨rr, he⟩ := hAt hA0
      rw [he] at hc
      simp only [List.mem_singleton] at hc
      subst hc; simp
    | false => rw [hAf hA0] at hc; simp at hc
  have hSnoA : ∀ c ∈ trS, ∀ o, c.ev ≠ Event.apply o := by
    intro c hc o
    cases hS0 : (p.save && !cm) with
    | true =>
      obtain ⟨rr, he⟩ := hSt hS0
      rw [he] at hc
      simp only [List.mem_singleton] at hc
      subst hc; simp
    | false => rw [hSf hS0] at hc; simp at hc
  have hSnoC : ∀ c ∈ trS, ∀ s', c.ev ≠ Event.cmd s' := by
    intro c hc s'
    cases hS0 : (p.save && !cm) with
    | true =>
      obtain ⟨rr, he⟩ := hSt hS0
      rw [he] at hc
      simp only [List.mem_singleton] at hc
      subst hc; simp
    | false => rw [hSf hS0] at hc; simp at hc
  have hA_trA : hasApply trA = ((r.after != "") && effApply p && !cm) := by
    cases hA0 : ((r.after != "") && effApply p && !cm) with
    | true => obtain ⟨rr, he⟩ := hAt hA0; rw [he]; rfl
    | false => rw [hAf hA0]; rfl
  have hS_trS : hasSave trS = (p.save && !cm) := by
    cases hS0 : (p.save && !cm) with
    | true => obtain ⟨rr, he⟩ := hSt hS0; rw [he]; rfl
    | false => rw [hSf hS0]; rfl
  have hlenA : trA.length ≤ 1 := by
    cases hA0 : ((r.after != "") && effApply p && !cm) with
    | true => obtain ⟨rr, he⟩ := hAt hA0; rw [he]; simp
    | false => rw [hAf hA0]; simp
  have hlenS : trS.length ≤ 1 := by
    cases hS0 : (p.save && !cm) with
    | true => obtain ⟨rr, he⟩ := hSt hS0; rw [he]; simp
    | false => rw [hSf hS0]; simp
  have eCmdOuts : cmdOuts st.2 = cmdOuts trC := by
    rw [htr', cmdOuts_append, cmdOuts_append, cmdOuts_append, cmdOuts_append, cmdOuts_append,
      cmdOuts_eq_nil_of trD hDnoC, cmdOuts_eq_nil_of [c1] h1noC, cmdOuts_eq_nil_of [c2] h2noC,
      cmdOuts_eq_nil_of trA hAnoC, cmdOuts_eq_nil_of trS hSnoC]
    simp
  have eCmdLines : cmdLines st.2 = cmdLines trC := by
    rw [htr', cmdLines_append, cmdLines_append, cmdLines_append, cmdLines_append,
      cmdLines_append, cmdLines_eq_nil_of trD hDnoC, cmdLines_eq_nil_of [c1] h1noC,
      cmdLines_eq_nil_of [c2] h2noC, cmdLines_eq_nil_of trA hAnoC,
      cmdLines_eq_nil_of trS hSnoC]
    simp
  have eApplyOuts : applyOuts st.2 = applyOuts trA := by
    rw [htr', applyOuts_append, applyOuts_append, applyOuts_append, applyOuts_append,
      applyOuts_append, applyOuts_eq_nil_of trD hDnoA, applyOuts_eq_nil_of [c1] h1noA,
      applyOuts_eq_nil_of [c2] h2noA, applyOuts_eq_nil_of trC hCnoA,
      applyOuts_eq_nil_of trS hSnoA]
    simp
  have eSaveOuts : saveOuts st.2 = saveOuts trS := by
    rw [htr', saveOuts_append, saveOuts_append, saveOuts_append, saveOuts_append,
      saveOuts_append, saveOuts_eq_nil_of trD hDnoS, saveOuts_eq_nil_of [c1] h1noS,
      saveOuts_eq_nil_of [c2] h2noS, saveOuts_eq_nil_of trC hCnoS,
      saveOuts_eq_nil_of trA hAnoS]
    simp
  refine ⟨?_, ?_, hch, ?_, ?_, ?_, ?_⟩
  · rw [htr', hasApply_append, hasApply_append, hasApply_append, hasApply_append,
      hasApply_append, hasApply_eq_false_of trD hDnoA, hasApply_eq_false_of [c1] h1noA,
      hasApply_eq_false_of [c2] h2noA, hasApply_eq_false_of trC hCnoA,
      hasApply_eq_false_of trS hSnoA, hA_trA]
    simp
  · rw [htr', hasSave_append, hasSave_append, hasSave_append, hasSave_append,
      hasSave_append, hasSave_eq_false_of trD hDnoS, hasSave_eq_false_of [c1] h1noS,
      hasSave_eq_false_of [c2] h2noS, hasSave_eq_false_of trC hCnoS,
      hasSave_eq_false_of trA hAnoS, hS_trS]
    simp
  · rw [eCmdOuts, eApplyOuts, eSaveOuts]
    exact hout
  · rw [eCmdLines]
    exact hlines
  · rw [eApplyOuts]
    exact le_trans (List.length_filterMap_le _ _) hlenA
  · rw [eSaveOuts]
    exact le_trans (List.length_filterMap_le _ _) hlenS

theorem str_append_assoc (x y z : String) : (x ++ y) ++ z = x ++ (y ++ z) := by
  apply String.ext
  simp [String.data_append]

/-- C1: for every session request run in check-mode, the detach command is
executed — it is in fact the first executor call, issued even when the
detach flag is false — and neither the apply command nor the save command
is ever executed, regardless of the requested apply, save, atomic or
confirm flags.  Stated on the trace of the pipeline over the resolved
command list, for an arbitrary executor and device state. -/
theorem C1_check_mode_dry_run (ex : Exec σ) (p : Params) (cmds : List String) (s : σ) :
    hasDetach (run_nvue_resolved ex true p cmds s).1.2 = true ∧
    hasApply (run_nvue_resolved ex true p cmds s).1.2 = false ∧
    hasSave (run_nvue_resolved ex true p cmds s).1.2 = false := by
  unfold run_nvue_resolved
  refine ⟨?_, ?_, ?_⟩
  · obtain ⟨rr, ext, hh⟩ := run_core_detach_first ex true (effApply p) (effDetach p) p.save
      (applyOptions p) cmds s (by simp)
    rw [hh]
    simp [hasDetach]
  · apply hasApply_eq_false_of
    intro c hc o hev
    rcases run_core_events ex true (effApply p) (effDetach p) p.save (applyOptions p) cmds s
        c hc with hcf | hcf | hcf | hcf | hcf
    · rw [hev] at hcf; exact Event.noConfusion hcf
    · rw [hev] at hcf; exact Event.noConfusion hcf
    · obtain ⟨l, hl, _⟩ := hcf; rw [hev] at hl; exact Event.noConfusion hl
    · have hb := hcf.2; simp at hb
    · rw [hev] at hcf; exact Event.noConfusion hcf.1
  · apply hasSave_eq_false_of
    intro c hc hev
    rcases run_core_events ex true (effApply p) (effDetach p) p.save (applyOptions p) cmds s
        c hc with hcf | hcf | hcf | hcf | hcf
    · rw [hev] at hcf; exact Event.noConfusion hcf
    · rw [hev] at hcf; exact Event.noConfusion hcf
    · obtain ⟨l, hl, _⟩ := hcf; rw [hev] at hl; exact Event.noConfusion hl
    · rw [hev] at hcf; exact Event.noConfusion hcf.1
    · have hb := hcf.2; simp at hb

/-- C2: for every session, the pipeline is fail-fast: if it completes, every
executor call in the trace returned exit status zero; if it fails, the trace
ends exactly at its first failed call and the failure report carries that
call's command line, exit code, stdout and stderr — no further executor
command runs and no result record is produced (`failFast`). -/
theorem C2_fail_fast (ex : Exec σ) (cm : Bool) (p : Params) (cmds : List String) (s : σ) :
    failFast (run_nvue_resolved ex cm p cmds s) := by
  unfold run_nvue_resolved
  exact run_core_failFast ex cm (effApply p) (effDetach p) p.save (applyOptions p) cmds s

/-- C3: for every session not in check-mode that completes successfully, the
apply command is executed iff the after snapshot is non-empty and the
effective apply flag (apply, or forced by confirm or atomic) holds; whenever
the apply command is executed the result's changed flag is true; and the
output list is the per-command outputs followed by the apply (then save)
command's trimmed output, each appended only when non-empty
(`applyOuts`/`saveOuts` keep only non-empty trimmed stdout). -/
theorem C3_apply_phase (ex : Exec σ) (p : Params) (cmds : List String) (s : σ)
    (st : St σ) (r : NvResult)
    (h : run_nvue_resolved ex false p cmds s = (st, Except.ok r)) :
    hasApply st.2 = ((r.after != "") && effApply p) ∧
    (hasApply st.2 = true → r.changed = true) ∧
    r.output = cmdOuts st.2 ++ (applyOuts st.2 ++ saveOuts st.2) := by
  obtain ⟨hA, hS, hch, hout, _, _, _⟩ := run_resolved_ok_spec ex false p cmds s st r h
  have hA' : hasApply st.2 = ((r.after != "") && effApply p) := by rw [hA]; simp
  refine ⟨hA', ?_, hout⟩
  intro ht
  rw [ht] at hA
  rw [hch, ← hA]
  simp

/-- C4: for every successfully completed session in which neither the apply
phase nor the save phase executed, the result's changed flag equals plain
string inequality of the two trimmed diff snapshots. -/
theorem C4_changed_is_diff_inequality (ex : Exec σ) (cm : Bool) (p : Params)
    (cmds : List String) (s : σ) (st : St σ) (r : NvResult)
    (h : run_nvue_resolved ex cm p cmds s = (st, Except.ok r))
    (hA : hasApply st.2 = false) (hS : hasSave st.2 = false) :
    r.changed = (r.before != r.after) := by
  obtain ⟨hA2, hS2, hch, _, _, _, _⟩ := run_resolved_ok_spec ex cm p cmds s st r h
  rw [hA] at hA2
  rw [hS] at hS2
  rw [hch, ← hA2, ← hS2]
  simp

/-- C5: for every successfully completed session, the output list is exactly
the per-command trimmed stdouts (one per resolved command that is non-blank
after trimming, in command order: the trace's command lines are the trimmed
non-blank commands in order) followed by at most one apply entry and at most
one save entry, each present only when that phase ran with non-empty trimmed
output; hence its length is the non-blank command count plus 0 or 1 for
apply plus 0 or 1 for save. -/
theorem C5_output_accounting (ex : Exec σ) (cm : Bool) (p : Params) (cmds : List String)
    (s : σ) (st : St σ) (r : NvResult)
    (h : run_nvue_resolved ex cm p cmds s = (st, Except.ok r)) :
    r.output = cmdOuts st.2 ++ (applyOuts st.2 ++ saveOuts st.2) ∧
    cmdLines st.2 = (cmds.map strip).filter (fun l => l != "") ∧
    r.output.length = (cmds.filter (fun l => strip l != "")).length +
      ((applyOuts st.2).length + (saveOuts st.2).length) ∧
    (applyOuts st.2).length ≤ 1 ∧ (saveOuts st.2).length ≤ 1 := by
  obtain ⟨_, _, _, hout, hlines, hle1, hle2⟩ := run_resolved_ok_spec ex cm p cmds s st r h
  refine ⟨hout, hlines, ?_, hle1, hle2⟩
  rw [hout]
  simp only [List.length_append]
  rw [cmdOuts_length, hlines, filter_trim_length]

/-- C6: for every session request with confirm set, the effective apply flag
is forced true even when the caller passed apply false, and every apply
command that such a session issues has a command line containing the
substring `--confirm <confirm_timeout>` in addition to `--assume-yes`. -/
theorem C6_confirm_options (ex : Exec σ) (cm : Bool) (p : Params) (cmds : List String)
    (s : σ) (c : Call) (o : String) (hc : p.confirm = true)
    (hm : c ∈ (run_nvue_resolved ex cm p cmds s).1.2) (he : c.ev = Event.apply o) :
    effApply p = true ∧
    strContains c.ev.line ("--confirm " ++ p.confirm_timeout) ∧
    strContains c.ev.line "--assume-yes" := by
  have heff : effApply p = true := by
    unfold effApply
    rw [hc]
    cases p.atomic <;> simp
  unfold run_nvue_resolved at hm
  have ho : o = applyOptions p := by
    rcases run_core_events ex cm (effApply p) (effDetach p) p.save (applyOptions p) cmds s
        c hm with hcf | hcf | hcf | hcf | hcf
    · rw [he] at hcf; exact Event.noConfusion hcf
    · rw [he] at hcf; exact Event.noConfusion hcf
    · obtain ⟨l, hl, _⟩ := hcf; rw [he] at hl; exact Event.noConfusion hl
    · have h1 := hcf.1; rw [he] at h1; exact Event.apply.inj h1
    · have h1 := hcf.1; rw [he] at h1; exact Event.noConfusion h1
  have hline : c.ev.line = "config apply --assume-yes " ++ applyOptions p := by
    rw [he, ho]; rfl
  refine ⟨heff, ?_, ?_⟩
  · rw [hline]
    unfold applyOptions
    rw [if_pos hc]
    refine ⟨"config apply --assume-yes  ",
      (if p.confirm_yes then " --confirm-yes" else "")
        ++ (if p.confirm_no then " --confirm-no" else ""), ?_⟩
    simp only [← str_append_assoc]
    rw [show (("config apply --assume-yes " ++ " --confirm ") : String) =
      "config apply --assume-yes  " ++ "--confirm " from rfl]
  · rw [hline]
    refine ⟨"config apply ", " " ++ applyOptions p, ?_⟩
    simp only [← str_append_assoc]
    rw [show (("config apply " ++ "--assume-yes" ++ " ") : String) =
      "config apply --assume-yes " from rfl]

/-- C7 (amended): a session with atomic set behaves identically — same
executor calls, same outcome — to the same request with atomic off, detach
and apply on, and the save flag UNCHANGED.  (The claim's variant with save
forced off is refuted by `C7_counterexample`: atomic does not suppress a
requested save.) -/
theorem C7_atomic_equivalence (ex : Exec σ) (cm : Bool) (p : Params) (cmds : List String)
    (s : σ) :
    run_nvue_resolved ex cm {p with atomic := true} cmds s =
      run_nvue_resolved ex cm {p with atomic := false, detach := true, apply := true} cmds s := by
  unfold run_nvue_resolved
  simp [effApply, effDetach, applyOptions]

/-- C7 counterexample: with atomic and save both requested (a combination
the argument validation permits), the session is NOT identical to the same
request with atomic off, detach and apply on and no save: the former issues
the save command, the latter does not. -/
theorem C7_counterexample :
    ¬ (run_nvue_resolved exEmpty false pAtomicSave ["set x"] () =
        run_nvue_resolved exEmpty false pAtomicSaveRewritten ["set x"] ()) := by
  intro h
  have h2 : hasSave (run_nvue_resolved exEmpty false pAtomicSave ["set x"] ()).1.2 =
      hasSave (run_nvue_resolved exEmpty false pAtomicSaveRewritten ["set x"] ()).1.2 := by
    rw [h]
  exact absurd h2 (by decide)

/-- C8: a request populating both commands and template, or combining apply
with atomic, atomic with detach or any confirm flag, or any two of
confirm/confirm_yes/confirm_no, violates the declared mutual exclusions and
is rejected by the argument-validation layer before any device command
executes (the executor is never consulted: the theorem holds for every
executor). -/
theorem C8_mutual_exclusion (ex : Exec σ) (cm : Bool) (s : σ) (p : Params)
    (hv : (p.commands ≠ [] ∧ p.template.isSome = true) ∨
      (p.apply = true ∧ p.atomic = true) ∨
      (p.detach = true ∧ p.atomic = true) ∨
      (p.confirm = true ∧ p.atomic = true) ∨
      (p.confirm_yes = true ∧ p.atomic = true) ∨
      (p.confirm_no = true ∧ p.atomic = true) ∨
      (p.confirm = true ∧ p.confirm_yes = true) ∨
      (p.confirm = true ∧ p.confirm_no = true) ∨
      (p.confirm_yes = true ∧ p.confirm_no = true)) :
    mutually_exclusive_violation p = true ∧ main ex cm p s = MainOutcome.rejected := by
  have hmv : mutually_exclusive_violation p = true := by
    unfold mutually_exclusive_violation
    rcases hv with ⟨h1, h2⟩ | ⟨h1, h2⟩ | ⟨h1, h2⟩ | ⟨h1, h2⟩ | ⟨h1, h2⟩ | ⟨h1, h2⟩ |
      ⟨h1, h2⟩ | ⟨h1, h2⟩ | ⟨h1, h2⟩ <;>
      simp [h1, h2]
  refine ⟨hmv, ?_⟩
  unfold main
  rw [if_pos hmv]

/-- C9: the all-defaults request — commands empty, template absent — passes
the declared mutual-exclusion validation, yet command resolution crashes
(dereferencing the absent template) before any device command executes and
without producing the execution-failure report: for every executor the
outcome is the crash, so command resolution is partial outside the
precondition that one command source is supplied. -/
theorem C9_default_input_crash :
    mutually_exclusive_violation pDefault = false ∧
    resolve_commands pDefault = none ∧
    ∀ (τ : Type) (ex : Exec τ) (cm : Bool) (s : τ), main ex cm pDefault s = MainOutcome.crashed :=
  ⟨rfl, rfl, fun _ _ _ _ => rfl⟩

/-- C10: for every request in which apply, confirm and atomic are all false
(in particular when only confirm_yes or confirm_no is set), the effective
apply flag stays false and no session over that request ever executes an
apply command — so the `--confirm-yes`/`--confirm-no` options, which are
only ever sent as part of the apply command line, are never sent to the
device: confirm_yes and confirm_no do not force apply the way confirm does. -/
theorem C10_confirm_yes_no_do_not_apply (ex : Exec σ) (cm : Bool) (p : Params)
    (cmds : List String) (s : σ)
    (h1 : p.apply = false) (h2 : p.confirm = false) (h3 : p.atomic = false) :
    effApply p = false ∧ hasApply (run_nvue_resolved ex cm p cmds s).1.2 = false := by
  have he : effApply p = false := by simp [effApply, h1, h2, h3]
  refine ⟨he, ?_⟩
  unfold run_nvue_resolved
  apply hasApply_eq_false_of
  intro c hc o hev
  rcases run_core_events ex cm (effApply p) (effDetach p) p.save (applyOptions p) cmds s
      c hc with hcf | hcf | hcf | hcf | hcf
  · rw [hev] at hcf; exact Event.noConfusion hcf
  · rw [hev] at hcf; exact Event.noConfusion hcf
  · obtain ⟨l, hl, _⟩ := hcf; rw [hev] at hl; exact Event.noConfusion hl
  · have hb := hcf.2
    rw [he] at hb
    simp at hb
  · rw [hev] at hcf; exact Event.noConfusion hcf.1

/-- Witness for C3 at a concrete run: executor always succeeding with
output `x`, request with only apply set, one command. -/
theorem C3_witness :
    hasApply (((), [⟨Event.diff, ⟨0, "x", ""⟩⟩, ⟨Event.cmd "set x", ⟨0, "x", ""⟩⟩,
        ⟨Event.diff, ⟨0, "x", ""⟩⟩, ⟨Event.apply "", ⟨0, "x", ""⟩⟩]) : St Unit).2 =
      (((NvResult.mk true "x" "x" ["x", "x"]).after != "") && effApply pApply) ∧
    (hasApply (((), [⟨Event.diff, ⟨0, "x", ""⟩⟩, ⟨Event.cmd "set x", ⟨0, "x", ""⟩⟩,
        ⟨Event.diff, ⟨0, "x", ""⟩⟩, ⟨Event.apply "", ⟨0, "x", ""⟩⟩]) : St Unit).2 = true →
      (NvResult.mk true "x" "x" ["x", "x"]).changed = true) ∧
    (NvResult.mk true "x" "x" ["x", "x"]).output =
      cmdOuts (((), [⟨Event.diff, ⟨0, "x", ""⟩⟩, ⟨Event.cmd "set x", ⟨0, "x", ""⟩⟩,
        ⟨Event.diff, ⟨0, "x", ""⟩⟩, ⟨Event.apply "", ⟨0, "x", ""⟩⟩]) : St Unit).2 ++
      (applyOuts (((), [⟨Event.diff, ⟨0, "x", ""⟩⟩, ⟨Event.cmd "set x", ⟨0, "x", ""⟩⟩,
        ⟨Event.diff, ⟨0, "x", ""⟩⟩, ⟨Event.apply "", ⟨0, "x", ""⟩⟩]) : St Unit).2 ++
       saveOuts (((), [⟨Event.diff, ⟨0, "x", ""⟩⟩, ⟨Event.cmd "set x", ⟨0, "x", ""⟩⟩,
        ⟨Event.diff, ⟨0, "x", ""⟩⟩, ⟨Event.apply "", ⟨0, "x", ""⟩⟩]) : St Unit).2) :=
  C3_apply_phase exPending pApply ["set x"] ()
    (((), [⟨Event.diff, ⟨0, "x", ""⟩⟩, ⟨Event.cmd "set x", ⟨0, "x", ""⟩⟩,
      ⟨Event.diff, ⟨0, "x", ""⟩⟩, ⟨Event.apply "", ⟨0, "x", ""⟩⟩]) : St Unit)
    (NvResult.mk true "x" "x" ["x", "x"]) (by rfl)

/-- Witness for C4 at a concrete run: executor always succeeding with empty
output, all-default flags, one command; no apply or save runs and changed
is the diff inequality. -/
theorem C4_witness :
    (NvResult.mk false "" "" [""]).changed =
      ((NvResult.mk false "" "" [""]).before != (NvResult.mk false "" "" [""]).after) :=
  C4_changed_is_diff_inequality exEmpty false pDefault ["set x"] ()
    (((), [⟨Event.diff, ⟨0, "", ""⟩⟩, ⟨Event.cmd "set x", ⟨0, "", ""⟩⟩,
      ⟨Event.diff, ⟨0, "", ""⟩⟩]) : St Unit)
    (NvResult.mk false "" "" [""]) (by rfl) (by rfl) (by rfl)

/-- Witness for C5 at a concrete run with one non-blank command among three
requested lines (one empty and one whitespace-only line are skipped). -/
theorem C5_witness :
    (NvResult.mk false "x" "x" ["x"]).output =
      cmdOuts (((), [⟨Event.diff, ⟨0, "x", ""⟩⟩, ⟨Event.cmd "set x", ⟨0, "x", ""⟩⟩,
        ⟨Event.diff, ⟨0, "x", ""⟩⟩]) : St Unit).2 ++
      (applyOuts (((), [⟨Event.diff, ⟨0, "x", ""⟩⟩, ⟨Event.cmd "set x", ⟨0, "x", ""⟩⟩,
        ⟨Event.diff, ⟨0, "x", ""⟩⟩]) : St Unit).2 ++
       saveOuts (((), [⟨Event.diff, ⟨0, "x", ""⟩⟩, ⟨Event.cmd "set x", ⟨0, "x", ""⟩⟩,
        ⟨Event.diff, ⟨0, "x", ""⟩⟩]) : St Unit).2) ∧
    cmdLines (((), [⟨Event.diff, ⟨0, "x", ""⟩⟩, ⟨Event.cmd "set x", ⟨0, "x", ""⟩⟩,
        ⟨Event.diff, ⟨0, "x", ""⟩⟩]) : St Unit).2 =
      ((["set x", "", "   "].map strip).filter (fun l => l != "")) ∧
    (NvResult.mk false "x" "x" ["x"]).output.length =
      ((["set x", "", "   "].filter (fun l => strip l != "")).length +
        ((applyOuts (((), [⟨Event.diff, ⟨0, "x", ""⟩⟩, ⟨Event.cmd "set x", ⟨0, "x", ""⟩⟩,
          ⟨Event.diff, ⟨0, "x", ""⟩⟩]) : St Unit).2).length +
         (saveOuts (((), [⟨Event.diff, ⟨0, "x", ""⟩⟩, ⟨Event.cmd "set x", ⟨0, "x", ""⟩⟩,
          ⟨Event.diff, ⟨0, "x", ""⟩⟩]) : St Unit).2).length)) ∧
    (applyOuts (((), [⟨Event.diff, ⟨0, "x", ""⟩⟩, ⟨Event.cmd "set x", ⟨0, "x", ""⟩⟩,
        ⟨Event.diff, ⟨0, "x", ""⟩⟩]) : St Unit).2).length ≤ 1 ∧
    (saveOuts (((), [⟨Event.diff, ⟨0, "x", ""⟩⟩, ⟨Event.cmd "set x", ⟨0, "x", ""⟩⟩,
        ⟨Event.diff, ⟨0, "x", ""⟩⟩]) : St Unit).2).length ≤ 1 :=
  C5_output_accounting exPending false pDefault ["set x", "", "   "] ()
    (((), [⟨Event.diff, ⟨0, "x", ""⟩⟩, ⟨Event.cmd "set x", ⟨0, "x", ""⟩⟩,
      ⟨Event.diff, ⟨0, "x", ""⟩⟩]) : St Unit)
    (NvResult.mk false "x" "x" ["x"]) (by rfl)

/-- Witness for C6 at a concrete run: confirm-only request; the issued
apply command carries `--confirm 10m` and `--assume-yes`. -/
theorem C6_witness :
    effApply pConfirm = true ∧
    strContains (Call.mk (Event.apply " --confirm 10m") ⟨0, "x", ""⟩).ev.line
      ("--confirm " ++ pConfirm.confirm_timeout) ∧
    strContains (Call.mk (Event.apply " --confirm 10m") ⟨0, "x", ""⟩).ev.line "--assume-yes" :=
  C6_confirm_options exPending false pConfirm ["set x"] ()
    (Call.mk (Event.apply " --confirm 10m") ⟨0, "x", ""⟩) " --confirm 10m"
    rfl (by decide) rfl

/-- Witness for C8 at a concrete request populating both commands and
template. -/
theorem C8_witness :
    mutually_exclusive_violation pBothSources = true ∧
    main exEmpty false pBothSources () = MainOutcome.rejected :=
  C8_mutual_exclusion exEmpty false () pBothSources (Or.inl ⟨by decide, by decide⟩)

/-- Witness for C10 at a concrete request with only confirm_yes set: apply
stays off and the session issues no apply command. -/
theorem C10_witness :
    effApply pConfirmYes = false ∧
    hasApply (run_nvue_resolved exPending false pConfirmYes ["set x"] ()).1.2 = false :=
  C10_confirm_yes_no_do_not_apply exPending false pConfirmYes ["set x"] () rfl rfl rfl

end Nvue
